import Mathlib

set_option maxRecDepth 16384

/-!
Verification of the ARM32 instruction-encoding engine and label/forward-branch
resolution mechanism of `src/IceAssemblerARM32.cpp` (Subzero / SwiftShader).

Shallow embedding conventions:
* `IValueT` (`uint32_t`) values are modelled as `Nat`; where C++ wraps modulo
  2^32 the model takes `% 2^32` explicitly.
* `IOffsetT` (`int32_t`) values are modelled as `Int`.  The C++ `>>` on a
  negative signed integer is an arithmetic shift, i.e. floor division by a
  power of two; Lean's `Int` division `/` (Euclidean division) coincides with
  floor division for positive divisors, so `x >> n` is modelled as `x / 2^n`.
* Bit-field composition via `|` in the source is on provably disjoint fields;
  it is modelled as `+` (each place is commented with the layout).
* `llvm::report_fatal_error` and (active, non-minimal, checked-build) `assert`
  both abort code generation; fallible operations therefore return
  `Except String α`, and an aborted emission produces no buffer.
* The assembler buffer is an append-only list of 32-bit words with in-place
  update for backpatching; byte positions are multiples of 4.
-/

namespace ARM32

/-- `kWordSize`: instruction width in bytes (`sizeof(uint32_t)`). -/
def kWordSize : Nat := 4

/-- `L = 1 << 20`: load (or store) bit. -/
def L : Nat := 2 ^ 20

/-- `W = 1 << 21`: writeback-base-register bit. -/
def W : Nat := 2 ^ 21

/-- `B = 1 << 22`: unsigned-byte (or word) bit. -/
def B : Nat := 2 ^ 22

/-- `U = 1 << 23`: positive (or negative) offset/index bit. -/
def U : Nat := 2 ^ 23

/-- `P = 1 << 24`: offset/pre-indexed (or post-indexed) addressing bit. -/
def P : Nat := 2 ^ 24

/-- Bits 25-27 instruction type code `kInstTypeDataRegister` (ARM A5.1). -/
def kInstTypeDataRegister : Nat := 0

/-- `kInstTypeDataRegShift = 0` (same 3-bit code as the register form). -/
def kInstTypeDataRegShift : Nat := 0

/-- `kInstTypeDataImmediate = 1`. -/
def kInstTypeDataImmediate : Nat := 1

/-- `kInstTypeMemImmediate = 2`. -/
def kInstTypeMemImmediate : Nat := 2

/-- `kInstTypeRegisterShift = 3`. -/
def kInstTypeRegisterShift : Nat := 3

/-- `kPCReadOffset`: offset to the current PC as read by ARM CPUs (read-ahead
bias of 8 bytes). -/
def kPCReadOffset : Int := 8

/-- `kBranchOffsetBits = 24`. -/
def kBranchOffsetBits : Nat := 24

/-- `kBranchOffsetMask = 0x00ffffff`. -/
def kBranchOffsetMask : Nat := 0x00ffffff

/-- Modelled from the spec: `RegARM32::Encoded_Reg_sp` (the register table
lives in `IceRegistersARM32.h`, not under `src/`); the stack pointer is
general-purpose register 13 on ARM. -/
def Encoded_Reg_sp : Nat := 13

/-- Modelled from the spec: `RegARM32::Encoded_Reg_pc`; the program counter is
general-purpose register 15 on ARM. -/
def Encoded_Reg_pc : Nat := 15

/-- Arithmetic shift right on a signed value: C++ `x >> n` for a (possibly
negative) `int32_t`, i.e. floor division by `2^n` (Lean `Int` division by a
positive divisor is floor division). -/
def asr (x : Int) (n : Nat) : Int := x / 2 ^ n

/-- Reinterpret the low 32 bits of an unsigned value as a signed `int32_t`
(the C++ `static_cast<IOffsetT>` of a `uint32_t`). -/
def toInt32 (n : Nat) : Int :=
  if n % 2 ^ 32 < 2 ^ 31 then (n % 2 ^ 32 : Int) else (n % 2 ^ 32 : Int) - 2 ^ 32

/-- `mask(Value, Shift, Bits)`: the bits of `Value` at `Shift` of width
`Bits`. -/
def mask (value shift bits : Nat) : Nat := (value >>> shift) &&& (2 ^ bits - 1)

/-- `isBitSet(Bit, Value)`: `(Value & Bit) == Bit`. -/
def isBitSet (bit value : Nat) : Bool := value &&& bit == bit

/-- `getGPRReg(Shift, Value)`: the 4-bit GPR number at `Shift` in `Value`. -/
def getGPRReg (shift value : Nat) : Nat := (value >>> shift) &&& 0xF

/-- `encodeBool`. -/
def encodeBool (b : Bool) : Nat := if b then 1 else 0

/-- Modelled from the spec: `Utils::IsAligned` (from `IceUtils.h`, not under
`src/`): offsets that are not multiples of the (power of two) alignment are
not representable (§4.4 "only 4-aligned byte displacements are
representable").  `X & (N-1) == 0` on a two's-complement value is its
nonnegative residue `% N == 0`. -/
def IsAligned (offset : Int) (alignment : Nat) : Bool := offset % (alignment : Int) == 0

/-- Modelled from the spec: `Utils::IsInt(N, value)` (from `IceUtils.h`, not
under `src/`): whether `value` fits in a signed `N`-bit field (§4.4 "offsets
that don't fit the field width ... are a fatal range error"). -/
def IsInt (n : Nat) (value : Int) : Bool :=
  decide (-(2 ^ (n - 1) : Int) ≤ value) && decide (value < (2 ^ (n - 1) : Int))

/-- Modelled from the spec: `Utils::IsAbsoluteUint(N, value)` (from
`IceUtils.h`, not under `src/`): whether `value` is an unsigned `N`-bit
value. -/
def IsAbsoluteUint (n : Nat) (value : Int) : Bool :=
  decide (0 ≤ value) && decide (value < (2 ^ n : Int))

/-- `canEncodeBranchOffset(Offset)`: `Offset` is 4-aligned and `Offset >> 2`
fits in the signed 24-bit immediate of a branch instruction. -/
def canEncodeBranchOffset (offset : Int) : Bool :=
  IsAligned offset 4 && IsInt kBranchOffsetBits (asr offset 2)

/-- Modelled from the spec: `CondARM32::isDefined` (condition table from
`IceConditionCodesARM32.h`, not under `src/`): encodings 0-14 are the 15
defined conditions (`eq` … `al`), 15 is the reserved marker. -/
def condIsDefined (c : Nat) : Bool := c < 15

/-- `OperandARM32::ShiftKind` (declared in `IceInstARM32.h`; the encoding
switch `encodeShift` below is in the source file). -/
inductive ShiftKind
  | noShift
  | LSL
  | LSR
  | ASR
  | ROR
  | RRX
deriving DecidableEq

/-- `encodeShift`: ARM section A8.4.1 constant-shift encoding; `kNoShift` and
`LSL` share code 0, `ROR` and `RRX` share code 3. -/
def encodeShift : ShiftKind → Nat
  | .noShift => 0
  | .LSL => 0
  | .LSR => 1
  | .ASR => 2
  | .ROR => 3
  | .RRX => 3

/-- `encodeRotatedImm8(RotateAmt, Immed8)`: `rrrriiiiiiii` with the rotation
at bit 8 (`kRotateShift`).  Caller-checked asserts: `RotateAmt < 16`,
`Immed8 < 256`; the fields are then disjoint so `|` is `+`. -/
def encodeRotatedImm8 (rotateAmt immed8 : Nat) : Nat := rotateAmt * 2 ^ 8 + immed8

/-- `encodeShiftRotateImm5(Rm, Shift, imm5)`: `iiiiitt0mmmm` — `imm5` at bit 7
(`kShiftImmShift`), shift kind at bit 5 (`kShiftShift`), `Rm` at bit 0.
Caller-checked assert: `imm5 < 32`; fields disjoint so `|` is `+`. -/
def encodeShiftRotateImm5 (rm : Nat) (shift : ShiftKind) (imm5 : Nat) : Nat :=
  imm5 * 2 ^ 7 + encodeShift shift * 2 ^ 5 + rm

/-- `encodeShiftRotateReg(Rm, Shift, Rs)`: `ssss0tt1mmmm` — `Rs` at bit 8
(`kRsShift`), shift kind at bit 5, `B4`, `Rm` at bit 0 (fields disjoint for
`Rm, Rs < 16`, so `|` is `+`). -/
def encodeShiftRotateReg (rm : Nat) (shift : ShiftKind) (rs : Nat) : Nat :=
  rs * 2 ^ 8 + encodeShift shift * 2 ^ 5 + 2 ^ 4 + rm

/-- `RegSetWanted`: the register class expected in an operand. -/
inductive RegSetWanted
  | wantGPRegs
  | wantSRegs
  | wantDRegs
deriving DecidableEq

/-- The abstract `Operand` shapes consumed by `encodeOperand` (the source uses
runtime `dyn_cast` over `Ice::Operand`; the closed set of shapes it inspects
becomes a sum type, as the spec's §9 itself prescribes).  A `Variable` carries
whether it has a register and, if so, its encoded register number (the
`getEncodedGPRegNum`/`getEncodedSRegNum`/`getEncodedDRegNum` table lookups are
modelled as that stored number).  A `ConstantInteger32` carries the 32 bits of
its value (`uint32_t` view of the signed constant). -/
inductive Operand
  | var (hasReg : Bool) (regNum : Nat)
  | flexImm (rotate imm8 : Nat)
  | constI32 (value : Nat)
  | flexReg (reg : Operand) (shiftOp : ShiftKind) (amt : Operand)
  | shAmtImm (imm5 : Nat)
deriving DecidableEq

/-- `EncodedOperand` results of `encodeOperand` (the source's enum, with the
out-parameter `Value` attached to each constructor). -/
inductive EncodedOperand
  | cantEncode
  | register (v : Nat)
  | rotatedImm8 (v : Nat)
  | shiftedRegister (v : Nat)
  | regShiftReg (v : Nat)
  | shiftImm5 (v : Nat)
  | constI32 (v : Nat)
deriving DecidableEq

/-- `encodeOperand(Opnd, Value, WantedRegSet)`: classify an operand and
produce its bit pattern.  Mirrors the source's `dyn_cast` chain: `Variable`,
`OperandARM32FlexImm`, `ConstantInteger32`, `OperandARM32FlexReg` (whose
shift amount is a `Variable`, an `OperandARM32ShAmtImm`, or a non-negative
`ConstantInteger32`), `OperandARM32ShAmtImm`.  A negative `ConstantInteger32`
shift amount (high bit set in its 32-bit view) cannot encode. -/
def encodeOperand : Operand → RegSetWanted → EncodedOperand
  | .var hasReg r, _ => if hasReg then .register r else .cantEncode
  | .flexImm rotate imm8, _ =>
    if rotate < 2 ^ 4 && imm8 < 2 ^ 8 then .rotatedImm8 (rotate * 2 ^ 8 + imm8)
    else .cantEncode
  | .constI32 v, _ => .constI32 v
  | .flexReg reg shiftOp amt, _ =>
    match encodeOperand reg .wantGPRegs with
    | .register rm =>
      match amt with
      | .var hasReg rs =>
        match encodeOperand (.var hasReg rs) .wantGPRegs with
        | .register rsv => .regShiftReg (encodeShiftRotateReg rm shiftOp rsv)
        | _ => .cantEncode
      | .shAmtImm imm5 => .shiftedRegister (encodeShiftRotateImm5 rm shiftOp imm5)
      | .constI32 v =>
        if v < 2 ^ 31 then .shiftedRegister (encodeShiftRotateImm5 rm shiftOp v)
        else .cantEncode
      | _ => .cantEncode
    | _ => .cantEncode
  | .shAmtImm imm5, _ => .shiftImm5 (imm5 * 2 ^ 7)

/-- `encodeRegister`/`encodeGPRegister`: a register operand of the wanted
class, or a fatal error naming the instruction and register role. -/
def encodeRegister (opReg : Operand) (wanted : RegSetWanted) (regName instName : String) :
    Except String Nat :=
  match encodeOperand opReg wanted with
  | .register r => .ok r
  | _ => .error (instName ++ ": Can't find register " ++ regName)

/-- `encodeGPRegister`. -/
def encodeGPRegister (opReg : Operand) (regName instName : String) : Except String Nat :=
  encodeRegister opReg .wantGPRegs regName instName

/-- Modelled from the spec: `OperandARM32Mem::AddrMode` (declared in
`IceInstARM32.h`, not under `src/`).  Each enumerator is directly the P/U/W
bit pattern of the address word (the source composes it with `|`): plain
offset is pre-indexed without writeback (P=1, W=0), pre-indexed-with-writeback
sets P=1, W=1, and post-indexed (writeback implicit in the architecture) has
P=0, W=0 — the spec's §8 pop scenario pins the canonical single-register pop
word, whose post-indexed address has P=0, W=0, U=1.  The `Neg` variants clear
the `U` (positive-offset) bit. -/
inductive AddrMode
  | Offset
  | PreIndex
  | PostIndex
  | NegOffset
  | NegPreIndex
  | NegPostIndex
deriving DecidableEq

/-- The P/U/W bit pattern of an `AddrMode` (bits 24, 23, 21). -/
def AddrMode.encode : AddrMode → Nat
  | .Offset => P + U
  | .PreIndex => P + U + W
  | .PostIndex => U
  | .NegOffset => P
  | .NegPreIndex => P + W
  | .NegPostIndex => 0

/-- `EncodedImmAddress`: layouts of an immediate-modified register memory
address. -/
inductive EncodedImmAddress
  | rotatedImm8Address
  | rotatedImm8Div4Address
  | imm12Address
  | rotatedImm8Enc3Address
  | noImmOffsetAddress
deriving DecidableEq

/-- `encodeImmRegOffset(Reg, Offset, Mode, MaxOffset, OffsetShift)` (the
five-argument overload): `Mode | (Reg << kRnShift)`, with the `U` bit flipped
(`Value ^= U`) and the offset negated when the offset is negative; the debug
`assert(Offset <= MaxOffset)` is modelled as a guard.  The magnitude is below
`2^12` and the mode bits sit at 21-24, so the final `|` is `+`. -/
def encodeImmRegOffset (reg : Nat) (offset : Int) (mode : AddrMode)
    (maxOffset : Int) (offsetShift : Nat) : Except String Nat :=
  if offset < 0 then
    if -offset ≤ maxOffset then
      .ok ((mode.encode ^^^ U) + reg * 2 ^ 16 + ((-offset).toNat >>> offsetShift))
    else .error "assert: Offset <= MaxOffset"
  else
    if offset ≤ maxOffset then
      .ok (mode.encode + reg * 2 ^ 16 + (offset.toNat >>> offsetShift))
    else .error "assert: Offset <= MaxOffset"

/-- `encodeImmRegOffsetEnc3(Rn, Imm8, Mode)`: encoding 3 splits the 8-bit
magnitude into nibbles at bits 8-11 and 0-3 and sets `B22`; the debug
`assert(Imm8 < (1 << 8))` is modelled as a guard. -/
def encodeImmRegOffsetEnc3 (rn : Nat) (imm8 : Int) (mode : AddrMode) :
    Except String Nat :=
  if imm8 < 0 then
    if -imm8 < 2 ^ 8 then
      .ok ((mode.encode ^^^ U) + rn * 2 ^ 16 + B +
        ((-imm8).toNat &&& 0xf0) * 2 ^ 4 + ((-imm8).toNat &&& 0x0f))
    else .error "assert: Imm8 < (1 << 8)"
  else
    if imm8 < 2 ^ 8 then
      .ok (mode.encode + rn * 2 ^ 16 + B +
        (imm8.toNat &&& 0xf0) * 2 ^ 4 + (imm8.toNat &&& 0x0f))
    else .error "assert: Imm8 < (1 << 8)"

/-- `encodeImmRegOffset(ImmEncoding, Reg, Offset, Mode)` (the dispatching
overload): select the layout for the address kind, with the layouts' debug
asserts as guards. -/
def encodeImmRegOffsetForm (immEncoding : EncodedImmAddress) (reg : Nat)
    (offset : Int) (mode : AddrMode) : Except String Nat :=
  match immEncoding with
  | .rotatedImm8Address => encodeImmRegOffset reg offset mode ((2 : Int) ^ 8 - 1) 0
  | .rotatedImm8Div4Address =>
    if offset % 4 == 0 then encodeImmRegOffset reg offset mode ((2 : Int) ^ 8 - 1) 2
    else .error "assert: (Offset & 0x3) == 0"
  | .imm12Address => encodeImmRegOffset reg offset mode ((2 : Int) ^ 12 - 1) 0
  | .rotatedImm8Enc3Address => encodeImmRegOffsetEnc3 reg offset mode
  | .noImmOffsetAddress =>
    if offset == 0 then
      if mode == .Offset then .ok (reg * 2 ^ 16)
      else .error "assert: Mode == OperandARM32Mem::Offset"
    else .error "assert: Offset == 0"

/-- `AssemblerARM32::TargetInfo` (declared in the header): the frame/stack
base register used for register-less stack variables. -/
structure TargetInfo where
  frameOrStackReg : Nat
deriving DecidableEq

/-- The two operand shapes `encodeAddress` inspects: a register-less stack
`Variable` (base + immediate stack offset) or an `OperandARM32Mem` (base
register plus either an index register with shift, or an immediate offset,
with an addressing mode). -/
inductive AddrOperand
  | stackVar (hasReg : Bool) (regNum : Nat) (stackOffset : Int) (baseRegNum : Option Nat)
  | mem (baseHasReg : Bool) (baseReg : Nat) (isRegReg : Bool) (indexReg : Nat)
      (shiftOp : ShiftKind) (shiftAmt : Nat) (offset : Int) (mode : AddrMode)
deriving DecidableEq

/-- `EncodedOperand` results relevant to `encodeAddress` (with the encoded
address value attached). -/
inductive EncodedAddress
  | cantEncode
  | immRegOffset (v : Nat)
  | shiftRotateImm5 (v : Nat)
deriving DecidableEq

/-- `encodeAddress(Opnd, Value, TInfo, ImmEncoding)`: a register-less stack
variable becomes base + `Offset` (rejected unless an absolute 12-bit offset),
a reg-reg memory operand becomes `(Rn << kRnShift) | AddrMode |
encodeShiftRotateImm5(Rm, shift, amt)` (fields disjoint for `Rn, Rm < 16`,
`amt < 32`, so `|` is `+`), and an immediate-offset memory operand goes
through `encodeImmRegOffset`. -/
def encodeAddress (opnd : AddrOperand) (tinfo : TargetInfo)
    (immEncoding : EncodedImmAddress) : Except String EncodedAddress :=
  match opnd with
  | .stackVar hasReg _regNum stackOffset baseRegNum =>
    if hasReg then .ok .cantEncode
    else if IsAbsoluteUint 12 stackOffset then
      match encodeImmRegOffsetForm immEncoding (baseRegNum.getD tinfo.frameOrStackReg)
          stackOffset .Offset with
      | .ok v => .ok (.immRegOffset v)
      | .error e => .error e
    else .ok .cantEncode
  | .mem baseHasReg baseReg isRegReg indexReg shiftOp shiftAmt offset mode =>
    if baseHasReg then
      if isRegReg then
        .ok (.shiftRotateImm5
          (baseReg * 2 ^ 16 + mode.encode + encodeShiftRotateImm5 indexReg shiftOp shiftAmt))
      else
        match encodeImmRegOffsetForm immEncoding baseReg offset mode with
        | .ok v => .ok (.immRegOffset v)
        | .error e => .error e
    else .ok .cantEncode

/-- `verifyPOrNotW(Address, InstName)`: writeback (`W=1`) together with
not-pre-indexed (`P=0`) is not a valid ARM encoding (checks active:
non-minimal build). -/
def verifyPOrNotW (address : Nat) (instName : String) : Except String Unit :=
  if !isBitSet P address && isBitSet W address then
    .error (instName ++ ": P=0 when W=1 not allowed")
  else .ok ()

/-- `verifyRegsNotEq(Reg1, Reg1Name, Reg2, Reg2Name, InstName)`. -/
def verifyRegsNotEq (reg1 : Nat) (reg1Name : String) (reg2 : Nat) (reg2Name : String)
    (instName : String) : Except String Unit :=
  if reg1 == reg2 then
    .error (instName ++ ": " ++ reg1Name ++ "=" ++ reg2Name ++ " not allowed")
  else .ok ()

/-- `verifyRegNotPc(Reg, RegName, InstName)`. -/
def verifyRegNotPc (reg : Nat) (regName instName : String) : Except String Unit :=
  verifyRegsNotEq reg regName Encoded_Reg_pc "pc" instName

/-- `verifyAddrRegNotPc(RegShift, Address, RegName, InstName)`. -/
def verifyAddrRegNotPc (regShift address : Nat) (regName instName : String) :
    Except String Unit :=
  if getGPRReg regShift address == Encoded_Reg_pc then
    .error (instName ++ ": " ++ regName ++ "=pc not allowed")
  else .ok ()

/-- `verifyRegNotPcWhenSetFlags(Reg, SetFlags, InstName)`; the message prints
`RegARM32::getRegName(Reg)`, which is `"pc"` whenever the check fires. -/
def verifyRegNotPcWhenSetFlags (reg : Nat) (setFlags : Bool) (instName : String) :
    Except String Unit :=
  if setFlags && (reg == Encoded_Reg_pc) then
    .error (instName ++ ": pc=pc not allowed when CC=1")
  else .ok ()

/-- `EmitChecks`: rule checks requested of `emitType01`. -/
inductive EmitChecks
  | noChecks
  | rdIsPcAndSetFlags
deriving DecidableEq

/-- Modelled from the spec: the `Label` of `IceAssembler.h` /
`IceAssemblerARM32.h` (not under `src/`), §4.4: states
`Unbound{chain_head : Option Position}` → `Bound{position}` (terminal).
Both states and the chain head are packed into one signed `position` field:
`0` is unbound with the empty chain (the sentinel), `site + kWordSize` (> 0)
is unbound with the pending chain's head at buffer offset `site`, and
`-(p + kWordSize)` (< 0) is bound at buffer offset `p`.  The word-size bias
keeps a chain head at buffer offset 0 distinct from the sentinel; the spec's
"chain_head is a buffer offset recoverable by decoding the branch word stored
there" is this encoded value. -/
structure Label where
  position : Int
deriving DecidableEq

/-- `Label::isBound`. -/
def Label.isBound (lbl : Label) : Bool := lbl.position < 0

/-- `Label::isLinked`. -/
def Label.isLinked (lbl : Label) : Bool := lbl.position > 0

/-- `Label::getPosition` (bound labels). -/
def Label.getPosition (lbl : Label) : Int := -lbl.position - (kWordSize : Int)

/-- `Label::getLinkPosition` (linked labels): the most recent chain site. -/
def Label.getLinkPosition (lbl : Label) : Int := lbl.position - (kWordSize : Int)

/-- `Label::getEncodedPosition`: the raw encoded position used as the link
value stored into a forward branch's displacement field. -/
def Label.getEncodedPosition (lbl : Label) : Int := lbl.position

/-- `Label::bindTo(position)`. -/
def Label.bindTo (_lbl : Label) (position : Int) : Label :=
  ⟨-position - (kWordSize : Int)⟩

/-- `Label::linkTo(Asm, position)`. -/
def Label.linkTo (_lbl : Label) (position : Int) : Label :=
  ⟨position + (kWordSize : Int)⟩

/-- `Label::setPosition`. -/
def Label.setPosition (_lbl : Label) (position : Int) : Label := ⟨position⟩

/-- Modelled from the spec: `AssemblerBuffer::Size()` (from `IceAssembler.h`,
not under `src/`), §3 AssemblerBuffer: the current logical end position in
bytes; instruction data is word-aligned so it is 4 × the word count. -/
def bufSize (buf : List Nat) : Int := 4 * buf.length

/-- Modelled from the spec: `AssemblerBuffer::Load<IValueT>(position)`:
random-access load of the word at a (4-aligned) byte position. -/
def loadWord (buf : List Nat) (pos : Int) : Nat := buf.getD (pos.toNat / 4) 0

/-- Modelled from the spec: `AssemblerBuffer::Store<IValueT>(position, value)`:
in-place patch of the word at a (4-aligned) byte position. -/
def storeWord (buf : List Nat) (pos : Int) (w : Nat) : List Nat :=
  buf.set (pos.toNat / 4) w

/-- Modelled from the spec: `AssemblerARM32::emitInst` /
`AssemblerBuffer::Emit<IValueT>`: append one instruction word. -/
def emitInst (buf : List Nat) (w : Nat) : List Nat := buf ++ [w]

namespace AssemblerARM32

/-- `AssemblerARM32::encodeBranchOffset(Offset, Inst)`: subtract the PC
read-ahead bias, arithmetically shift right by 2, keep the low 24 bits, and
install them into `Inst`'s low 24 bits.  `(Inst & ~kBranchOffsetMask)` is
`(Inst / 2^24) * 2^24` and `|` of the disjoint 24-bit field is `+`; `Offset &
kBranchOffsetMask` on the signed offset is its nonnegative residue `% 2^24`.
The debug `assert(canEncodeBranchOffset(Offset))` is modelled as a guard
(checked build): out-of-range displacements abort rather than silently
wrap. -/
def encodeBranchOffset (offset : Int) (inst : Nat) : Except String Nat :=
  if canEncodeBranchOffset (offset - kPCReadOffset) then
    .ok ((inst / 2 ^ 24) * 2 ^ 24 + ((asr (offset - kPCReadOffset) 2) % (2 ^ 24 : Int)).toNat)
  else
    .error "assert: canEncodeBranchOffset"

/-- `AssemblerARM32::decodeBranchOffset(Inst)`: sign-extend the low 24 bits
(`(Inst & kBranchOffsetMask) << 8` reinterpreted as `int32_t`, then
arithmetic `>> 6`, i.e. `<< 2` with sign extension) and add back the PC
read-ahead bias. -/
def decodeBranchOffset (inst : Nat) : Int :=
  asr (toInt32 ((inst % 2 ^ 24) * 2 ^ 8)) 6 + kPCReadOffset

/-- `AssemblerARM32::emitType05(Cond, Offset, Link)`:
`cccc101liiiiiiiiiiiiiiiiiiiiiiii` — condition at bit 28, type 5 at bit 25,
link at bit 24 (disjoint fields, `|` is `+`), offset field via
`encodeBranchOffset`. -/
def emitType05 (cond : Nat) (offset : Int) (link : Bool) (buf : List Nat) :
    Except String (List Nat) :=
  if condIsDefined cond then
    match encodeBranchOffset offset
        (cond * 2 ^ 28 + 5 * 2 ^ 25 + encodeBool link * 2 ^ 24) with
    | .ok enc => .ok (emitInst buf enc)
    | .error e => .error e
  else .error "assert: CondARM32::isDefined"

/-- `AssemblerARM32::emitBranch(L, Cond, Link)`: a branch to a bound label
gets its real displacement immediately; a branch to an unbound label stores
the label's current encoded position (the link to the previous chain head, or
the sentinel) in its displacement field and becomes the new chain head. -/
def emitBranch (lbl : Label) (cond : Nat) (link : Bool) (buf : List Nat) :
    Except String (List Nat × Label) :=
  if lbl.isBound then
    match emitType05 cond (lbl.getPosition - bufSize buf) link buf with
    | .ok b => .ok (b, lbl)
    | .error e => .error e
  else
    match emitType05 cond lbl.getEncodedPosition link buf with
    | .ok b => .ok (b, lbl.linkTo (bufSize buf))
    | .error e => .error e

/-- The chain walk of `AssemblerARM32::bind`: while the label is linked, load
the word at the head site, re-encode its displacement field with the real
displacement `BoundPc - Position`, store it back, and step to the next link
recovered by decoding the old word.  The C++ `while` loop is modelled with
explicit fuel (`bind` passes one more than the buffer's word count, which the
chain invariant shows is enough); exhausted fuel — a cyclic chain — is an
error state the source cannot reach. -/
def bindLoop : Nat → Int → Label → List Nat → Except String (List Nat × Label)
  | 0, _, _, _ => .error "bind: chain exceeds buffer"
  | fuel + 1, boundPc, lbl, buf =>
    if lbl.isLinked then
      match encodeBranchOffset (boundPc - lbl.getLinkPosition)
          (loadWord buf lbl.getLinkPosition) with
      | .ok w =>
        bindLoop fuel boundPc
          (lbl.setPosition (decodeBranchOffset (loadWord buf lbl.getLinkPosition)))
          (storeWord buf lbl.getLinkPosition w)
      | .error e => .error e
    else .ok (buf, lbl)

/-- `AssemblerARM32::bind(L)`: binding requires an unbound label (the
checked-build `assert(!L->isBound())` — "Labels can only be bound once" — is
modelled as a guard); then walk and patch the pending chain and transition
the label to bound at the current buffer position. -/
def bind (lbl : Label) (buf : List Nat) : Except String (List Nat × Label) :=
  if lbl.isBound then .error "assert: Labels can only be bound once"
  else
    match bindLoop (buf.length + 1) (bufSize buf) lbl buf with
    | .ok (buf2, lbl2) => .ok (buf2, lbl2.bindTo (bufSize buf))
    | .error e => .error e

/-- Modelled from the spec: a 32-bit rotate-left (the helper
`Utils::rotateLeft32` used by `canHoldImm` lives in `IceUtils.h`, not under
`src/`).  For `v < 2^32`, `n ≤ 32`: the top `n` bits wrap to the bottom. -/
def rotl32 (v n : Nat) : Nat :=
  ((v % 2 ^ 32) * 2 ^ n + (v % 2 ^ 32) / 2 ^ (32 - n)) % 2 ^ 32

/-- Modelled from the spec: a 32-bit rotate-right; inverse of `rotl32`. -/
def rotr32 (v n : Nat) : Nat :=
  (v % 2 ^ 32) / 2 ^ n + ((v % 2 ^ 32) % 2 ^ n) * 2 ^ (32 - n)

/-- Modelled from the spec: `OperandARM32FlexImm::canHoldImm` (defined in
`IceInstARM32.cpp`, not under `src/`): §4.2 rule 3 — find a `(rotate, imm8)`
pair with `rotate < 16`, `imm8 < 256` and `rotate_right(imm8, rotate*2) ==
value`, i.e. the smallest even left-rotation bringing the value into 8 bits;
if none exists the caller must fail. -/
def canHoldImm (value : Nat) : Option (Nat × Nat) :=
  (List.range 16).findSome? fun rot =>
    if rotl32 value (2 * rot) < 2 ^ 8 then some (rot, rotl32 value (2 * rot)) else none

/-- `AssemblerARM32::emitType01(Cond, InstType, Opcode, SetFlags, Rn, Rd,
Imm12, RuleChecks, InstName)` (the low-level overload): run the requested
rule check, then compose
`cccc…` = condition at 28, type at 25, opcode at 21 (`kOpcodeShift`), S at 20
(`kSShift`), `Rn` at 16, `Rd` at 12, and the 12-bit operand field (disjoint
fields for in-range values, `|` is `+`).  The checked-build asserts
(`Rd < NumGPRegs`, `isDefined(Cond)`) are guards. -/
def emitType01Raw (cond instType opcode : Nat) (setFlags : Bool) (rn rd imm12 : Nat)
    (ruleChecks : EmitChecks) (instName : String) (buf : List Nat) :
    Except String (List Nat) :=
  match
    (match ruleChecks with
     | .noChecks => Except.ok ()
     | .rdIsPcAndSetFlags => verifyRegNotPcWhenSetFlags rd setFlags instName) with
  | .error e => .error e
  | .ok () =>
    if rd < 2 ^ 4 then
      if condIsDefined cond then
        .ok (emitInst buf
          (cond * 2 ^ 28 + instType * 2 ^ 25 + opcode * 2 ^ 21 +
            encodeBool setFlags * 2 ^ 20 + rn * 2 ^ 16 + rd * 2 ^ 12 + imm12))
      else .error "assert: CondARM32::isDefined"
    else .error "assert: Rd < RegARM32::getNumGPRegs"

/-- `AssemblerARM32::emitType01(Cond, Opcode, Rd, Rn, OpSrc1, SetFlags,
RuleChecks, InstName)` (the operand overload): classify the source operand
and choose the instruction type — register / shifted-register forms use type
0, a raw 32-bit constant must convert to a rotated-immediate (else fatal
"Immediate rotated constant not valid"), rotated immediates use type 1, and
register-shifted-register uses type 0 with the `kInstTypeDataRegShift`
code; anything else is fatal "Can't encode instruction". -/
def emitType01Op (cond opcode rd rn : Nat) (opSrc1 : Operand) (setFlags : Bool)
    (ruleChecks : EmitChecks) (instName : String) (buf : List Nat) :
    Except String (List Nat) :=
  match encodeOperand opSrc1 .wantGPRegs with
  | .register src1 =>
    emitType01Raw cond kInstTypeDataRegister opcode setFlags rn rd
      (encodeShiftRotateImm5 src1 .noShift 0) ruleChecks instName buf
  | .shiftedRegister v =>
    emitType01Raw cond kInstTypeDataRegister opcode setFlags rn rd v
      ruleChecks instName buf
  | .constI32 v =>
    match canHoldImm v with
    | none => .error (instName ++ ": Immediate rotated constant not valid")
    | some (rotateAmt, imm8) =>
      emitType01Raw cond kInstTypeDataImmediate opcode setFlags rn rd
        (encodeRotatedImm8 rotateAmt imm8) ruleChecks instName buf
  | .rotatedImm8 v =>
    emitType01Raw cond kInstTypeDataImmediate opcode setFlags rn rd v
      ruleChecks instName buf
  | .regShiftReg v =>
    emitType01Raw cond kInstTypeDataRegShift opcode setFlags rn rd v
      ruleChecks instName buf
  | _ => .error (instName ++ ": Can't encode instruction")

/-- `AssemblerARM32::emitType01(Cond, Opcode, OpRd, OpRn, OpSrc1, SetFlags,
RuleChecks, InstName)` (the all-operands overload). -/
def emitType01Operands (cond opcode : Nat) (opRd opRn opSrc1 : Operand)
    (setFlags : Bool) (ruleChecks : EmitChecks) (instName : String)
    (buf : List Nat) : Except String (List Nat) :=
  match encodeGPRegister opRd "Rd" instName with
  | .error e => .error e
  | .ok rd =>
    match encodeGPRegister opRn "Rn" instName with
    | .error e => .error e
    | .ok rn => emitType01Op cond opcode rd rn opSrc1 setFlags ruleChecks instName buf

/-- `AssemblerARM32::mov(OpRd, OpSrc, Cond)`: opcode `1101` (`B3|B2|B0`),
`SetFlags = false`, `Rn = 0`, with the `RdIsPcAndSetFlags` rule check. -/
def mov (opRd opSrc : Operand) (cond : Nat) (buf : List Nat) :
    Except String (List Nat) :=
  match encodeGPRegister opRd "Rd" "mov" with
  | .error e => .error e
  | .ok rd => emitType01Op cond 13 rd 0 opSrc false .rdIsPcAndSetFlags "mov" buf

/-- `AssemblerARM32::emitMemOp(Cond, InstType, IsLoad, IsByte, Rt, Address)`
(the low-level overload): condition at 28, type at 25, `L` (load) bit, `B`
(byte) bit, `Rt` at 12 (`kRdShift`), plus the encoded address (whose fields —
P/U/W at 21-24, `Rn` at 16-19, offset/index at 0-11 — are disjoint from the
rest, so `|` is `+`).  Checked-build asserts are guards. -/
def emitMemOpEncoded (cond instType : Nat) (isLoad isByte : Bool) (rt address : Nat)
    (buf : List Nat) : Except String (List Nat) :=
  if rt < 2 ^ 4 then
    if condIsDefined cond then
      .ok (emitInst buf
        (cond * 2 ^ 28 + instType * 2 ^ 25 + (if isLoad then L else 0) +
          (if isByte then B else 0) + rt * 2 ^ 12 + address))
    else .error "assert: CondARM32::isDefined"
  else .error "assert: Rt < RegARM32::getNumGPRegs"

/-- The `EncodedAsImmRegOffset` case body of the operand-level
`AssemblerARM32::emitMemOp`: verify `Rn ≠ pc`, `P=0 ∧ W=1` rejected, and the
"use push/pop instead" pattern (word-sized sp-relative post-increment whose
12-bit field equals `0x8`, per the source), then emit with
`kInstTypeMemImmediate`. -/
def emitMemOpImmCase (cond : Nat) (isLoad isByte : Bool) (rt address : Nat)
    (instName : String) (buf : List Nat) : Except String (List Nat) :=
  match verifyRegNotPc (getGPRReg 16 address) "Rn" instName with
  | .error e => .error e
  | .ok () =>
    match verifyPOrNotW address instName with
    | .error e => .error e
    | .ok () =>
      if !isByte && (getGPRReg 16 address == Encoded_Reg_sp) && !isBitSet P address &&
          isBitSet U address && !isBitSet W address && (mask address 0 12 == 0x8) then
        .error (instName ++ ": Use push/pop instead")
      else emitMemOpEncoded cond kInstTypeMemImmediate isLoad isByte rt address buf

/-- The `EncodedAsShiftRotateImm5` case body of the operand-level
`AssemblerARM32::emitMemOp`: verify `P=0 ∧ W=1` rejected, `Rm ≠ pc`,
`Rt ≠ pc` for byte transfers, and — when the writeback bit is set —
`Rn ≠ pc` and `Rn ≠ Rt`; then emit with `kInstTypeRegisterShift`. -/
def emitMemOpRegCase (cond : Nat) (isLoad isByte : Bool) (rt address : Nat)
    (instName : String) (buf : List Nat) : Except String (List Nat) :=
  match verifyPOrNotW address instName with
  | .error e => .error e
  | .ok () =>
    match verifyRegNotPc (getGPRReg 0 address) "Rm" instName with
    | .error e => .error e
    | .ok () =>
      match (if isByte then verifyRegNotPc rt "Rt" instName else .ok ()) with
      | .error e => .error e
      | .ok () =>
        match
          (if isBitSet W address then
            match verifyRegNotPc (getGPRReg 16 address) "Rn" instName with
            | .error e => Except.error e
            | .ok () => verifyRegsNotEq (getGPRReg 16 address) "Rn" rt "Rt" instName
          else .ok ()) with
        | .error e => .error e
        | .ok () => emitMemOpEncoded cond kInstTypeRegisterShift isLoad isByte rt address buf

/-- `AssemblerARM32::emitMemOp(Cond, IsLoad, IsByte, Rt, OpAddress, TInfo,
InstName)` (the operand-level overload): encode the address as `Imm12Address`
and dispatch on the result; an unencodable address is fatal "Memory address
not understood". -/
def emitMemOp (cond : Nat) (isLoad isByte : Bool) (rt : Nat)
    (opAddress : AddrOperand) (tinfo : TargetInfo) (instName : String)
    (buf : List Nat) : Except String (List Nat) :=
  match encodeAddress opAddress tinfo .imm12Address with
  | .error e => .error e
  | .ok (.immRegOffset a) => emitMemOpImmCase cond isLoad isByte rt a instName buf
  | .ok (.shiftRotateImm5 a) => emitMemOpRegCase cond isLoad isByte rt a instName buf
  | .ok .cantEncode => .error (instName ++ ": Memory address not understood")

/-- `AssemblerARM32::pop(OpRt, Cond)`: `Rt ≠ sp` (fatal otherwise), then a
word load `ldr Rt, [sp], #4` — post-indexed positive offset `kWordSize` at
`sp` — through the low-level `emitMemOp`. -/
def pop (opRt : Operand) (cond : Nat) (buf : List Nat) : Except String (List Nat) :=
  match encodeGPRegister opRt "Rt" "pop" with
  | .error e => .error e
  | .ok rt =>
    match verifyRegsNotEq rt "Rt" Encoded_Reg_sp "sp" "pop" with
    | .error e => .error e
    | .ok () =>
      match encodeImmRegOffset Encoded_Reg_sp (kWordSize : Int) .PostIndex
          ((2 : Int) ^ 8 - 1) 0 with
      | .error e => .error e
      | .ok address => emitMemOpEncoded cond kInstTypeMemImmediate true false rt address buf

/-- `AssemblerARM32::push(OpRt, Cond)`: `Rt ≠ sp` (fatal otherwise), then a
word store `str Rt, [sp, #-4]!` — pre-indexed negative offset `kWordSize` at
`sp` — through the low-level `emitMemOp`. -/
def push (opRt : Operand) (cond : Nat) (buf : List Nat) : Except String (List Nat) :=
  match encodeGPRegister opRt "Rt" "push" with
  | .error e => .error e
  | .ok rt =>
    match verifyRegsNotEq rt "Rt" Encoded_Reg_sp "sp" "push" with
    | .error e => .error e
    | .ok () =>
      match encodeImmRegOffset Encoded_Reg_sp (-(kWordSize : Int)) .PreIndex
          ((2 : Int) ^ 8 - 1) 0 with
      | .error e => .error e
      | .ok address => emitMemOpEncoded cond kInstTypeMemImmediate false false rt address buf

end AssemblerARM32

/-- One step of the instruction-selection driver's request stream relevant to
label resolution: either a branch to the (single) tracked label, or any other
emitted instruction word. -/
inductive AsmOp
  | branch (cond : Nat) (link : Bool)
  | word (w : Nat)
deriving DecidableEq

/-- Run a request stream against an assembler state (buffer and the tracked
label), emitting branches through `emitBranch` and other instructions through
`emitInst`. -/
def runOps : List AsmOp → List Nat × Label → Except String (List Nat × Label)
  | [], s => .ok s
  | .word w :: rest, (buf, lbl) => runOps rest (emitInst buf w, lbl)
  | .branch cond link :: rest, (buf, lbl) =>
    match AssemblerARM32.emitBranch lbl cond link buf with
    | .ok s => runOps rest s
    | .error e => .error e

/-- The buffer positions of the branch requests in a stream starting at byte
position `pos`, most recent first (prepended to `acc`) — the order in which
the pending chain threads them. -/
def branchSites : List AsmOp → Int → List Int → List Int
  | [], _, acc => acc
  | .word _ :: rest, pos, acc => branchSites rest (pos + 4) acc
  | .branch _ _ :: rest, pos, acc => branchSites rest (pos + 4) (pos :: acc)

/-- The pending-chain invariant: `Chain buf e sites` says the encoded label
position `e` together with the displacement fields of the words at `sites`
(most recent site first, strictly decreasing) threads the linked list of
unresolved forward-branch sites through `buf`, ending at the sentinel `0`. -/
inductive Chain : List Nat → Int → List Int → Prop
  | nil (buf : List Nat) : Chain buf 0 []
  | cons (buf : List Nat) (s e : Int) (rest : List Int) :
      Chain buf e rest →
      (∀ t ∈ rest, t < s) →
      0 ≤ s → s % 4 = 0 → s < bufSize buf →
      AssemblerARM32.decodeBranchOffset (loadWord buf s) = e →
      Chain buf (s + 4) (s :: rest)

/-! ## Theorems -/

/-- Exactness of the displacement codec: whenever `encodeBranchOffset`
succeeds (the biased offset passed `canEncodeBranchOffset`), decoding the
encoded word recovers the offset, whatever the other 8 bits of the
instruction word are. -/
theorem decodeBranchOffset_encodeBranchOffset (offset : Int) (inst w : Nat)
    (h : AssemblerARM32.encodeBranchOffset offset inst = .ok w) :
    AssemblerARM32.decodeBranchOffset w = offset := by
  unfold AssemblerARM32.encodeBranchOffset at h
  split at h
  case isFalse => exact absurd h (by simp)
  case isTrue hcan =>
    simp only [Except.ok.injEq] at h
    subst h
    unfold canEncodeBranchOffset IsAligned IsInt asr kPCReadOffset kBranchOffsetBits at hcan
    simp only [Bool.and_eq_true, beq_iff_eq, decide_eq_true_eq] at hcan
    obtain ⟨h4, hlo, hhi⟩ := hcan
    unfold AssemblerARM32.decodeBranchOffset toInt32 asr kPCReadOffset
    norm_num at h4 hlo hhi ⊢
    split <;> omega

/-- C2: for every 4-byte-aligned offset whose biased value (offset minus the
read-ahead bias 8), once arithmetically shifted right by 2, fits in the
signed 24-bit branch displacement field, encoding succeeds and decoding the
produced instruction word yields the offset back exactly, for any prior
instruction-word bits. -/
theorem C2_branch_offset_roundtrip (offset : Int) (inst : Nat)
    (haligned : offset % 4 = 0)
    (hlo : -(2 ^ 23) ≤ asr (offset - kPCReadOffset) 2)
    (hhi : asr (offset - kPCReadOffset) 2 < 2 ^ 23) :
    ∃ w, AssemblerARM32.encodeBranchOffset offset inst = .ok w ∧
      AssemblerARM32.decodeBranchOffset w = offset := by
  have hcan : canEncodeBranchOffset (offset - kPCReadOffset) = true := by
    unfold canEncodeBranchOffset IsAligned IsInt kBranchOffsetBits
    unfold kPCReadOffset at hlo hhi ⊢
    simp only [Bool.and_eq_true, beq_iff_eq, decide_eq_true_eq]
    refine ⟨by omega, by norm_num; exact hlo, by norm_num; exact hhi⟩
  have hok : AssemblerARM32.encodeBranchOffset offset inst =
      .ok ((inst / 2 ^ 24) * 2 ^ 24 + ((asr (offset - kPCReadOffset) 2) % (2 ^ 24 : Int)).toNat) := by
    unfold AssemblerARM32.encodeBranchOffset
    simp only [hcan, if_true]
  exact ⟨_, hok, decodeBranchOffset_encodeBranchOffset offset inst _ hok⟩

/-- Witness for C2 at `offset = 12` (a forward branch over three words;
biased value 4, field value 1) and instruction bits `0xEA000000`. -/
theorem C2_branch_offset_roundtrip_witness :
    (12 : Int) % 4 = 0 ∧
      -(2 ^ 23) ≤ asr ((12 : Int) - kPCReadOffset) 2 ∧
      asr ((12 : Int) - kPCReadOffset) 2 < 2 ^ 23 ∧
      ∃ w, AssemblerARM32.encodeBranchOffset 12 0xEA000000 = .ok w ∧
        AssemblerARM32.decodeBranchOffset w = 12 := by
  refine ⟨by norm_num, by decide, by decide, ?_⟩
  exact C2_branch_offset_roundtrip 12 0xEA000000 (by norm_num) (by decide) (by decide)

/-- C5: binding a label that is already `Bound` is rejected as a fatal
invariant violation (the checked-build assertion "Labels can only be bound
once"); `bind` proceeds past that guard only for unbound labels. -/
theorem C5_bind_already_bound_rejected (lbl : Label) (buf : List Nat)
    (h : lbl.isBound = true) :
    AssemblerARM32.bind lbl buf = .error "assert: Labels can only be bound once" := by
  unfold AssemblerARM32.bind
  simp [h]

/-- Witness for C5: a label bound at buffer position 0. -/
theorem C5_bind_already_bound_rejected_witness :
    (Label.mk (-4)).isBound = true ∧
      AssemblerARM32.bind ⟨-4⟩ [] = .error "assert: Labels can only be bound once" :=
  ⟨by decide, C5_bind_already_bound_rejected ⟨-4⟩ [] (by decide)⟩

/-- C3: `mov r0, #5` with the always condition (encoding 14) and no flag
setting appends exactly the word `0xE3A00005` to the buffer (condition
`1110`, type `001`, opcode `1101`, S=0, Rn=0, Rd=0, rotated-immediate field
`000000000101`). -/
theorem C3_mov_imm5_r0 (buf : List Nat) :
    AssemblerARM32.mov (.var true 0) (.constI32 5) 14 buf = .ok (buf ++ [0xE3A00005]) := rfl

/-- C6: a data-processing emission with the `RdIsPcAndSetFlags` rule check
that requests flag setting (`S=1`) with the program counter as destination is
rejected by `verifyRegNotPcWhenSetFlags` before any word is composed or
appended — the emission returns the fatal error and produces no buffer, for
every condition, type, opcode, `Rn`, and 12-bit operand field. -/
theorem C6_setflags_pc_dest_rejected (cond instType opcode rn imm12 : Nat)
    (instName : String) (buf : List Nat) :
    AssemblerARM32.emitType01Raw cond instType opcode true rn Encoded_Reg_pc imm12
      .rdIsPcAndSetFlags instName buf =
      .error (instName ++ ": pc=pc not allowed when CC=1") := by
  unfold AssemblerARM32.emitType01Raw verifyRegNotPcWhenSetFlags
  simp

/-- Rotating left then right by the same amount is the identity on 32-bit
values. -/
theorem rotr32_rotl32 (v n : Nat) (hv : v < 2 ^ 32) (hn : n ≤ 32) :
    AssemblerARM32.rotr32 (AssemblerARM32.rotl32 v n) n = v := by
  have hm : 0 < (2 : Nat) ^ n := Nat.two_pow_pos n
  have hmk : 2 ^ n * 2 ^ (32 - n) = 2 ^ 32 := by
    rw [← pow_add]
    congr 1
    omega
  have hmk' : (2 : Nat) ^ (32 - n) * 2 ^ n = 2 ^ 32 := by rw [mul_comm]; exact hmk
  obtain ⟨a, b, hab, halt, hblt⟩ :
      ∃ a b, v = a * 2 ^ (32 - n) + b ∧ a < 2 ^ n ∧ b < 2 ^ (32 - n) := by
    refine ⟨v / 2 ^ (32 - n), v % 2 ^ (32 - n), (Nat.div_add_mod' v _).symm, ?_,
      Nat.mod_lt _ (Nat.two_pow_pos _)⟩
    exact Nat.div_lt_of_lt_mul (by rw [hmk']; exact hv)
  subst hab
  have hdivk : (a * 2 ^ (32 - n) + b) / 2 ^ (32 - n) = a := by
    rw [mul_comm a, Nat.mul_add_div (Nat.two_pow_pos _), Nat.div_eq_of_lt hblt, add_zero]
  have hwlt : b * 2 ^ n + a < 2 ^ 32 := by
    calc b * 2 ^ n + a < (b + 1) * 2 ^ n := by rw [add_mul, one_mul]; omega
      _ ≤ 2 ^ (32 - n) * 2 ^ n := Nat.mul_le_mul_right _ (by omega)
      _ = 2 ^ 32 := hmk'
  have hrotl : AssemblerARM32.rotl32 (a * 2 ^ (32 - n) + b) n = b * 2 ^ n + a := by
    unfold AssemblerARM32.rotl32
    rw [Nat.mod_eq_of_lt hv, hdivk]
    have h1 : (a * 2 ^ (32 - n) + b) * 2 ^ n + a = 2 ^ 32 * a + (b * 2 ^ n + a) := by
      rw [← hmk]
      ring
    rw [h1, Nat.mul_add_mod, Nat.mod_eq_of_lt hwlt]
  rw [hrotl]
  unfold AssemblerARM32.rotr32
  rw [Nat.mod_eq_of_lt hwlt]
  have h3 : (b * 2 ^ n + a) / 2 ^ n = b := by
    rw [mul_comm b, Nat.mul_add_div hm, Nat.div_eq_of_lt halt, add_zero]
  have h4 : (b * 2 ^ n + a) % 2 ^ n = a := by
    rw [mul_comm b, Nat.mul_add_mod, Nat.mod_eq_of_lt halt]
  rw [h3, h4]
  ring

/-- If no `(rotate, imm8)` pair with `rotate < 16`, `imm8 < 256` rotates
right onto `value`, then the search `canHoldImm` finds nothing. -/
theorem canHoldImm_eq_none (v : Nat) (hv : v < 2 ^ 32)
    (h : ∀ rot < 16, ∀ imm8 < 2 ^ 8, AssemblerARM32.rotr32 imm8 (2 * rot) ≠ v) :
    AssemblerARM32.canHoldImm v = none := by
  unfold AssemblerARM32.canHoldImm
  rw [List.findSome?_eq_none_iff]
  intro rot hrot
  rw [List.mem_range] at hrot
  split
  case isTrue h8 =>
    exfalso
    refine h rot hrot (AssemblerARM32.rotl32 v (2 * rot)) h8 ?_
    have h8' : AssemblerARM32.rotl32 v (2 * rot) < 2 ^ 32 := lt_of_lt_of_le h8 (by norm_num)
    have : 2 * rot ≤ 32 := by omega
    exact rotr32_rotl32 v (2 * rot) hv this
  case isFalse => rfl

/-- C4: a data-processing emission whose source operand is a raw 32-bit
constant that no `(rotate, imm8)` pair with `rotate < 16`, `imm8 < 256` and
`rotate_right(imm8, rotate*2) == value` can produce is rejected with the
fatal "Immediate rotated constant not valid" error, appending no instruction
word, for every condition, opcode, register pair, flag request and rule
check. -/
theorem C4_unencodable_rotated_const_rejected (cond opcode rd rn : Nat)
    (setFlags : Bool) (ruleChecks : EmitChecks) (instName : String)
    (buf : List Nat) (v : Nat) (hv : v < 2 ^ 32)
    (h : ∀ rot < 16, ∀ imm8 < 2 ^ 8, AssemblerARM32.rotr32 imm8 (2 * rot) ≠ v) :
    AssemblerARM32.emitType01Op cond opcode rd rn (.constI32 v) setFlags ruleChecks
      instName buf = .error (instName ++ ": Immediate rotated constant not valid") := by
  have henc : encodeOperand (.constI32 v) .wantGPRegs = .constI32 v := rfl
  unfold AssemblerARM32.emitType01Op
  simp only [henc, canHoldImm_eq_none v hv h]

/-- Witness for C4 at the spec's example value `0xFF000001` (nine significant
bits in any cyclic window, hence unencodable), requested as `mov r0,
#0xFF000001` under the always condition. -/
theorem C4_unencodable_rotated_const_rejected_witness :
    (0xFF000001 : Nat) < 2 ^ 32 ∧
      (∀ rot < 16, ∀ imm8 < 2 ^ 8,
        AssemblerARM32.rotr32 imm8 (2 * rot) ≠ 0xFF000001) ∧
      AssemblerARM32.emitType01Op 14 13 0 0 (.constI32 0xFF000001) false .noChecks
        "mov" [] = .error "mov: Immediate rotated constant not valid" := by
  refine ⟨by norm_num, by decide, ?_⟩
  exact C4_unencodable_rotated_const_rejected 14 13 0 0 false .noChecks "mov" []
    0xFF000001 (by norm_num) (by decide)

/-- Bit tests against a power of two reduce to divide-and-mod. -/
theorem isBitSet_two_pow (k value : Nat) :
    isBitSet (2 ^ k) value = decide (value / 2 ^ k % 2 = 1) := by
  unfold isBitSet
  rw [Nat.and_two_pow, ← Nat.testBit_to_div_mod]
  cases h : value.testBit k
  · simp only [h, Bool.toNat_false, zero_mul, beq_iff_eq]
    exact decide_eq_false (Nat.two_pow_pos k).ne
  · simp [h]

/-- `isBitSet P` as arithmetic. -/
theorem isBitSet_P (value : Nat) : isBitSet P value = decide (value / 2 ^ 24 % 2 = 1) :=
  isBitSet_two_pow 24 value

/-- `isBitSet W` as arithmetic. -/
theorem isBitSet_W (value : Nat) : isBitSet W value = decide (value / 2 ^ 21 % 2 = 1) :=
  isBitSet_two_pow 21 value

/-- `isBitSet U` as arithmetic. -/
theorem isBitSet_U (value : Nat) : isBitSet U value = decide (value / 2 ^ 23 % 2 = 1) :=
  isBitSet_two_pow 23 value

/-- `getGPRReg` as arithmetic. -/
theorem getGPRReg_div_mod (shift value : Nat) :
    getGPRReg shift value = value / 2 ^ shift % 16 := by
  unfold getGPRReg
  rw [Nat.shiftRight_eq_div_pow]
  exact Nat.and_pow_two_sub_one_eq_mod _ 4

/-- The 2-bit shift-kind code is at most 3. -/
theorem encodeShift_le (s : ShiftKind) : encodeShift s ≤ 3 := by
  cases s <;> simp [encodeShift]

/-- C7: `pop {Rt}` for a general-purpose `Rt ≠ sp` under a defined condition
appends exactly the canonical ARM single-register pop word
`cccc 0100 1001 1101 dddd 0000 0000 0100` — condition at 28, the
immediate-form load with base `sp`, post-indexed (P=0, W=0), positive (U=1)
offset 4, i.e. `cond·2^28 + 0x049D0004 + Rt·2^12`. -/
theorem C7_pop_single_register (rt cond : Nat) (buf : List Nat)
    (hrt : rt < 2 ^ 4) (hsp : rt ≠ Encoded_Reg_sp) (hcond : cond < 15) :
    AssemblerARM32.pop (.var true rt) cond buf =
      .ok (buf ++ [cond * 2 ^ 28 + 0x049D0004 + rt * 2 ^ 12]) := by
  have henc : encodeGPRegister (.var true rt) "Rt" "pop" = .ok rt := rfl
  have h13 : (rt == Encoded_Reg_sp) = false := beq_eq_false_iff_ne.mpr hsp
  have hne : verifyRegsNotEq rt "Rt" Encoded_Reg_sp "sp" "pop" = .ok () := by
    unfold verifyRegsNotEq
    rw [h13]
    rfl
  have haddr : encodeImmRegOffset Encoded_Reg_sp (kWordSize : Int) .PostIndex
      ((2 : Int) ^ 8 - 1) 0 = .ok 0x8D0004 := rfl
  unfold AssemblerARM32.pop
  simp only [henc, hne, haddr]
  unfold AssemblerARM32.emitMemOpEncoded
  have hc : condIsDefined cond = true := by unfold condIsDefined; simpa using hcond
  rw [if_pos hrt, if_pos hc]
  unfold emitInst kInstTypeMemImmediate L
  simp
  omega

/-- Witness for C7: `pop {r0}` with the always condition appends
`0xE49D0004`. -/
theorem C7_pop_single_register_witness :
    (0 : Nat) < 2 ^ 4 ∧ (0 : Nat) ≠ Encoded_Reg_sp ∧ (14 : Nat) < 15 ∧
      AssemblerARM32.pop (.var true 0) 14 [] =
        .ok [14 * 2 ^ 28 + 0x049D0004 + 0 * 2 ^ 12] := by
  refine ⟨by norm_num, by decide, by norm_num, ?_⟩
  exact C7_pop_single_register 0 14 [] (by norm_num) (by decide) (by norm_num)

/-- C10: the single-register `push`/`pop` emitters reject `Rt = sp` with the
fatal error "Rt=sp not allowed" before composing or appending any word, for
every condition and buffer — a restriction not stated in the spec. -/
theorem C10_push_pop_sp_rejected (cond : Nat) (buf : List Nat) :
    AssemblerARM32.pop (.var true Encoded_Reg_sp) cond buf =
        .error "pop: Rt=sp not allowed" ∧
      AssemblerARM32.push (.var true Encoded_Reg_sp) cond buf =
        .error "push: Rt=sp not allowed" :=
  ⟨rfl, rfl⟩

/-- C8: a load/store emission whose encoded address has the writeback bit set
(`W = 1`) but the pre-indexed bit clear (`P = 0`) is rejected with a fatal
error and appends no word, in both the immediate-offset and the
register-offset case of the operand-level `emitMemOp` (in the immediate case
an earlier `Rn = pc` violation may be the error reported; either way the
emission aborts). -/
theorem C8_p0_w1_rejected (cond : Nat) (isLoad isByte : Bool) (rt address : Nat)
    (instName : String) (buf : List Nat)
    (hp : isBitSet P address = false) (hw : isBitSet W address = true) :
    (∃ e, AssemblerARM32.emitMemOpImmCase cond isLoad isByte rt address instName buf =
      .error e) ∧
    (∃ e, AssemblerARM32.emitMemOpRegCase cond isLoad isByte rt address instName buf =
      .error e) := by
  have hpw : verifyPOrNotW address instName =
      .error (instName ++ ": P=0 when W=1 not allowed") := by
    unfold verifyPOrNotW
    rw [hp, hw]
    rfl
  constructor
  · unfold AssemblerARM32.emitMemOpImmCase
    cases hv : verifyRegNotPc (getGPRReg 16 address) "Rn" instName with
    | error e => exact ⟨e, by simp only [hv]⟩
    | ok u =>
      cases u
      exact ⟨instName ++ ": P=0 when W=1 not allowed", by simp only [hv, hpw]⟩
  · unfold AssemblerARM32.emitMemOpRegCase
    exact ⟨instName ++ ": P=0 when W=1 not allowed", by simp only [hpw]⟩

/-- Witness for C8 at the raw address bits `2^21` (W set, P clear), a word
load of `r0` named "ldr". -/
theorem C8_p0_w1_rejected_witness :
    isBitSet P (2 ^ 21) = false ∧ isBitSet W (2 ^ 21) = true ∧
      (∃ e, AssemblerARM32.emitMemOpImmCase 14 true false 0 (2 ^ 21) "ldr" [] =
        .error e) ∧
      (∃ e, AssemblerARM32.emitMemOpRegCase 14 true false 0 (2 ^ 21) "ldr" [] =
        .error e) := by
  refine ⟨by decide, by decide, ?_⟩
  exact C8_p0_w1_rejected 14 true false 0 (2 ^ 21) "ldr" [] (by decide) (by decide)

/-- Counterexample to C9 as stated: a register-indexed word load with
writeback whose base register *equals its index register* (`ldr r0, [r1,
r1]!`, base = index = r1, transfer register r0) is emitted without any error
— the word `0xE7B10001` is appended — although the claim requires a fatal
base-≠-index rejection. -/
theorem C9_base_eq_index_accepted :
    AssemblerARM32.emitMemOp 14 true false 0 (.mem true 1 true 1 .noShift 0 0 .PreIndex)
      ⟨13⟩ "ldr" [] = .ok [0xE7B10001] := rfl

/-- C9 (amended): for a register-indexed memory operand with writeback
requested (a pre-indexed mode, which is how the encoded address gets `W = 1`),
the emitter enforces that the base register differs from the *transfer*
register `Rt` — not from the index register — rejecting the emission with the
fatal error naming that rule ("Rn=Rt not allowed") when base = `Rt` (stated
here with base = `Rt` = `Rn`, base and index not `pc`, an in-range shift
amount, and in-range register numbers). -/
theorem C9_amended_writeback_base_eq_rt_rejected (cond : Nat) (isLoad isByte : Bool)
    (rn rm amt : Nat) (shiftOp : ShiftKind) (offset : Int) (mode : AddrMode)
    (tinfo : TargetInfo) (instName : String) (buf : List Nat)
    (hmode : mode = .PreIndex ∨ mode = .NegPreIndex)
    (hrn : rn < 2 ^ 4) (hrm : rm < 2 ^ 4) (hamt : amt < 2 ^ 5)
    (hrnpc : rn ≠ Encoded_Reg_pc) (hrmpc : rm ≠ Encoded_Reg_pc) :
    AssemblerARM32.emitMemOp cond isLoad isByte rn
      (.mem true rn true rm shiftOp amt offset mode) tinfo instName buf =
      .error (instName ++ ": " ++ "Rn" ++ "=" ++ "Rt" ++ " not allowed") := by
  have henc : encodeAddress (.mem true rn true rm shiftOp amt offset mode) tinfo
      .imm12Address =
      .ok (.shiftRotateImm5 (rn * 2 ^ 16 + mode.encode + encodeShiftRotateImm5 rm shiftOp amt)) := by
    unfold encodeAddress
    rfl
  have hes := encodeShift_le shiftOp
  have hsr : encodeShiftRotateImm5 rm shiftOp amt =
      amt * 2 ^ 7 + encodeShift shiftOp * 2 ^ 5 + rm := rfl
  have hmenc : mode.encode = 2 ^ 24 + 2 ^ 23 + 2 ^ 21 ∨ mode.encode = 2 ^ 24 + 2 ^ 21 := by
    rcases hmode with h | h <;> subst h
    · left; rfl
    · right; rfl
  set addr := rn * 2 ^ 16 + mode.encode + encodeShiftRotateImm5 rm shiftOp amt with haddr
  have hPb : isBitSet P addr = true := by
    rw [isBitSet_P, decide_eq_true_eq, haddr, hsr]
    rcases hmenc with h | h <;> rw [h] <;> omega
  have hWb : isBitSet W addr = true := by
    rw [isBitSet_W, decide_eq_true_eq, haddr, hsr]
    rcases hmenc with h | h <;> rw [h] <;> omega
  have hRn : getGPRReg 16 addr = rn := by
    rw [getGPRReg_div_mod, haddr, hsr]
    rcases hmenc with h | h <;> rw [h] <;> omega
  have hRm : getGPRReg 0 addr = rm := by
    rw [getGPRReg_div_mod, haddr, hsr]
    rcases hmenc with h | h <;> rw [h] <;> omega
  have hpw : verifyPOrNotW addr instName = .ok () := by
    unfold verifyPOrNotW
    rw [hPb]
    rfl
  have hvm : verifyRegNotPc (getGPRReg 0 addr) "Rm" instName = .ok () := by
    unfold verifyRegNotPc verifyRegsNotEq
    rw [hRm, beq_eq_false_iff_ne.mpr hrmpc]
    rfl
  have hvt : verifyRegNotPc rn "Rt" instName = .ok () := by
    unfold verifyRegNotPc verifyRegsNotEq
    rw [beq_eq_false_iff_ne.mpr hrnpc]
    rfl
  have hvn : verifyRegNotPc (getGPRReg 16 addr) "Rn" instName = .ok () := by
    unfold verifyRegNotPc verifyRegsNotEq
    rw [hRn, beq_eq_false_iff_ne.mpr hrnpc]
    rfl
  have hveq : verifyRegsNotEq (getGPRReg 16 addr) "Rn" rn "Rt" instName =
      .error (instName ++ ": " ++ "Rn" ++ "=" ++ "Rt" ++ " not allowed") := by
    unfold verifyRegsNotEq
    rw [hRn, beq_self_eq_true]
    rfl
  unfold AssemblerARM32.emitMemOp
  simp only [henc]
  unfold AssemblerARM32.emitMemOpRegCase
  cases isByte <;> simp only [hpw, hvm, hvt, hWb, hvn, hveq, if_true, Bool.false_eq_true,
    if_false]

/-- Witness for C9 (amended): `ldr r1, [r1, r2]!` — base = transfer = r1,
index r2 — is rejected with "ldr: Rn=Rt not allowed". -/
theorem C9_amended_writeback_base_eq_rt_rejected_witness :
    ((AddrMode.PreIndex = AddrMode.PreIndex ∨ AddrMode.PreIndex = AddrMode.NegPreIndex) ∧
      (1 : Nat) < 2 ^ 4 ∧ (2 : Nat) < 2 ^ 4 ∧ (0 : Nat) < 2 ^ 5 ∧
      (1 : Nat) ≠ Encoded_Reg_pc ∧ (2 : Nat) ≠ Encoded_Reg_pc) ∧
      AssemblerARM32.emitMemOp 14 true false 1
        (.mem true 1 true 2 .noShift 0 0 .PreIndex) ⟨13⟩ "ldr" [] =
        .error "ldr: Rn=Rt not allowed" := by
  refine ⟨⟨Or.inl rfl, by norm_num, by norm_num, by norm_num, by decide, by decide⟩, ?_⟩
  have h := C9_amended_writeback_base_eq_rt_rejected 14 true false 1 2 0 .noShift 0
    .PreIndex ⟨13⟩ "ldr" [] (Or.inl rfl) (by norm_num) (by norm_num) (by norm_num)
    (by decide) (by decide)
  exact h.trans (by rfl)

/-- Buffer sizes are nonnegative. -/
theorem bufSize_nonneg (buf : List Nat) : 0 ≤ bufSize buf := by
  unfold bufSize
  positivity

/-- The buffer size is 4-aligned. -/
theorem bufSize_mod_four (buf : List Nat) : bufSize buf % 4 = 0 := by
  unfold bufSize
  omega

/-- Appending a word grows the size by one word. -/
theorem bufSize_emitInst (buf : List Nat) (w : Nat) :
    bufSize (emitInst buf w) = bufSize buf + 4 := by
  simp [bufSize, emitInst]
  omega

/-- In-place stores preserve the buffer size. -/
theorem bufSize_storeWord (buf : List Nat) (pos : Int) (w : Nat) :
    bufSize (storeWord buf pos w) = bufSize buf := by
  simp [bufSize, storeWord]

/-- In-place stores preserve the word count. -/
theorem storeWord_length (buf : List Nat) (pos : Int) (w : Nat) :
    (storeWord buf pos w).length = buf.length := by
  simp [storeWord]

/-- Loads below the old end are unaffected by appends. -/
theorem loadWord_append (buf ext : List Nat) (pos : Int) (h0 : 0 ≤ pos)
    (h : pos < bufSize buf) : loadWord (buf ++ ext) pos = loadWord buf pos := by
  have hidx : pos.toNat / 4 < buf.length := by
    unfold bufSize at h
    omega
  unfold loadWord
  simp [List.getD_eq_getElem?_getD, List.getElem?_append, hidx]

/-- Loading the word just appended at the old end position. -/
theorem loadWord_emitInst_self (buf : List Nat) (w : Nat) :
    loadWord (emitInst buf w) (bufSize buf) = w := by
  unfold loadWord emitInst bufSize
  have h4 : ((4 * (buf.length : Int)).toNat) / 4 = buf.length := by omega
  rw [h4]
  simp [List.getD_eq_getElem?_getD]

/-- Loading the stored word back. -/
theorem loadWord_storeWord_self (buf : List Nat) (pos : Int) (w : Nat)
    (h0 : 0 ≤ pos) (h : pos < bufSize buf) :
    loadWord (storeWord buf pos w) pos = w := by
  have hidx : pos.toNat / 4 < buf.length := by
    unfold bufSize at h
    omega
  unfold loadWord storeWord
  simp [List.getD_eq_getElem?_getD, List.getElem?_set, hidx]

/-- A store at one 4-aligned position leaves the word at a different
4-aligned position unchanged. -/
theorem loadWord_storeWord_ne (buf : List Nat) (pos q : Int) (w : Nat)
    (hpos0 : 0 ≤ pos) (hq0 : 0 ≤ q) (hpal : pos % 4 = 0) (hqal : q % 4 = 0)
    (hne : pos ≠ q) : loadWord (storeWord buf pos w) q = loadWord buf q := by
  have hidx : pos.toNat / 4 ≠ q.toNat / 4 := by omega
  unfold loadWord storeWord
  simp [List.getD_eq_getElem?_getD, List.getElem?_set, hidx]

/-- A chain's encoded head is nonnegative. -/
theorem Chain.encPos_nonneg {buf : List Nat} {e : Int} {sites : List Int}
    (h : Chain buf e sites) : 0 ≤ e := by
  cases h
  · exact le_refl 0
  · omega

/-- A chain's encoded head is at most the buffer size. -/
theorem Chain.encPos_le {buf : List Nat} {e : Int} {sites : List Int}
    (h : Chain buf e sites) : e ≤ bufSize buf := by
  cases h with
  | nil => exact bufSize_nonneg buf
  | cons s e rest _ _ h0 hal hsz _ =>
    have := bufSize_mod_four buf
    omega

/-- Every chained site is a 4-aligned position inside the buffer. -/
theorem Chain.sites_bounds {buf : List Nat} {e : Int} {sites : List Int}
    (h : Chain buf e sites) : ∀ t ∈ sites, 0 ≤ t ∧ t % 4 = 0 ∧ t < bufSize buf := by
  induction h with
  | nil => simp
  | cons s e rest _ _ h0 hal hsz _ ih =>
    intro t ht
    rcases List.mem_cons.mp ht with rfl | ht
    · exact ⟨h0, hal, hsz⟩
    · exact ih t ht

/-- Chain inversion: the head value is either the sentinel with no sites, or
the most recent site biased by the word size. -/
theorem Chain.head_cases {buf : List Nat} {e : Int} {sites : List Int}
    (h : Chain buf e sites) :
    (e = 0 ∧ sites = []) ∨ ∃ s rest, sites = s :: rest ∧ e = s + 4 := by
  cases h with
  | nil => exact Or.inl ⟨rfl, rfl⟩
  | cons s e rest => exact Or.inr ⟨s, rest, rfl, rfl⟩

/-- Four times the chain length is bounded by the encoded head (sites are
strictly decreasing multiples of 4 below the head). -/
theorem Chain.four_mul_length_le {buf : List Nat} {e : Int} {sites : List Int}
    (h : Chain buf e sites) : 4 * sites.length ≤ e := by
  induction h with
  | nil => simp
  | cons s e rest hc hlt h0 hal hsz hdec ih =>
    have hle : e ≤ s := by
      rcases hc.head_cases with ⟨he, _⟩ | ⟨s', rest', hrest, he⟩
      · omega
      · have hs' := hlt s' (by rw [hrest]; exact List.mem_cons_self s' rest')
        have := (hc.sites_bounds s' (by rw [hrest]; exact List.mem_cons_self s' rest')).2.1
        omega
    simp only [List.length_cons]
    omega

/-- The number of pending sites never exceeds the buffer's word count. -/
theorem Chain.length_le {buf : List Nat} {e : Int} {sites : List Int}
    (h : Chain buf e sites) : sites.length ≤ buf.length := by
  have h1 := h.four_mul_length_le
  have h2 := h.encPos_le
  unfold bufSize at h2
  omega

/-- Appending a word preserves the pending chain. -/
theorem Chain.grow {buf : List Nat} {e : Int} {sites : List Int}
    (h : Chain buf e sites) (w : Nat) : Chain (emitInst buf w) e sites := by
  induction h with
  | nil => exact .nil _
  | cons s e rest hc hlt h0 hal hsz hdec ih =>
    refine .cons _ s e rest ih hlt h0 hal ?_ ?_
    · rw [bufSize_emitInst]
      omega
    · unfold emitInst
      rw [loadWord_append buf [w] s h0 hsz]
      exact hdec

/-- Storing at a position that is no pending site preserves the chain. -/
theorem Chain.store {buf : List Nat} {e : Int} {sites : List Int}
    (h : Chain buf e sites) (pos : Int) (w : Nat) (hpos0 : 0 ≤ pos)
    (hal : pos % 4 = 0) (hnot : ∀ t ∈ sites, t ≠ pos) :
    Chain (storeWord buf pos w) e sites := by
  induction h with
  | nil => exact .nil _
  | cons s e rest hc hlt h0 hsal hsz hdec ih =>
    refine .cons _ s e rest (ih fun t ht => hnot t (List.mem_cons_of_mem _ ht))
      hlt h0 hsal ?_ ?_
    · rw [bufSize_storeWord]
      exact hsz
    · rw [loadWord_storeWord_ne buf pos s w hpos0 h0 hal hsal
        fun hh => hnot s (List.mem_cons_self s rest) hh.symm]
      exact hdec

/-- Emitting a request stream from any state whose label threads a valid
pending chain yields a state threading the extended chain: every branch
emitted while the label is unbound becomes the new chain head, linked (via
the displacement field of its branch word) to the previous head. -/
theorem runOps_chain : ∀ (ops : List AsmOp) (buf : List Nat) (lbl : Label)
    (sites : List Int) (buf2 : List Nat) (lbl2 : Label),
    Chain buf lbl.position sites →
    runOps ops (buf, lbl) = .ok (buf2, lbl2) →
    Chain buf2 lbl2.position (branchSites ops (bufSize buf) sites) := by
  intro ops
  induction ops with
  | nil =>
    intro buf lbl sites buf2 lbl2 hc hrun
    unfold runOps at hrun
    simp only [Except.ok.injEq, Prod.mk.injEq] at hrun
    obtain ⟨rfl, rfl⟩ := hrun
    exact hc
  | cons op rest ih =>
    intro buf lbl sites buf2 lbl2 hc hrun
    cases op with
    | word w =>
      unfold runOps at hrun
      unfold branchSites
      rw [← bufSize_emitInst buf w]
      exact ih (emitInst buf w) lbl sites buf2 lbl2 (hc.grow w) hrun
    | branch cond link =>
      unfold runOps at hrun
      cases hb : AssemblerARM32.emitBranch lbl cond link buf with
      | error e =>
        rw [hb] at hrun
        exact absurd hrun (by simp)
      | ok st =>
        rw [hb] at hrun
        obtain ⟨buf', lbl'⟩ := st
        have hnb : lbl.isBound = false := by
          have := hc.encPos_nonneg
          unfold Label.isBound
          simp only [decide_eq_false_iff_not]
          omega
        unfold AssemblerARM32.emitBranch at hb
        rw [hnb] at hb
        simp only [Bool.false_eq_true, if_false] at hb
        cases ht : AssemblerARM32.emitType05 cond lbl.getEncodedPosition link buf with
        | error e =>
          rw [ht] at hb
          exact absurd hb (by simp)
        | ok b =>
          rw [ht] at hb
          simp only [Except.ok.injEq, Prod.mk.injEq] at hb
          obtain ⟨rfl, rfl⟩ := hb
          unfold AssemblerARM32.emitType05 at ht
          split at ht
          case isFalse => exact absurd ht (by simp)
          case isTrue hcond =>
            cases he : AssemblerARM32.encodeBranchOffset lbl.getEncodedPosition
                (cond * 2 ^ 28 + 5 * 2 ^ 25 + encodeBool link * 2 ^ 24) with
            | error e =>
              rw [he] at ht
              exact absurd ht (by simp)
            | ok enc =>
              rw [he] at ht
              simp only [Except.ok.injEq] at ht
              subst ht
              have hdec := decodeBranchOffset_encodeBranchOffset _ _ _ he
              have hnew : Chain (emitInst buf enc) ((lbl.linkTo (bufSize buf)).position)
                  (bufSize buf :: sites) := by
                have hpos : (lbl.linkTo (bufSize buf)).position = bufSize buf + 4 := by
                  unfold Label.linkTo kWordSize
                  norm_num
                rw [hpos]
                refine .cons _ (bufSize buf) lbl.position sites (hc.grow enc)
                  (fun t ht => (hc.sites_bounds t ht).2.2) (bufSize_nonneg buf)
                  (bufSize_mod_four buf) ?_ ?_
                · rw [bufSize_emitInst]
                  omega
                · rw [loadWord_emitInst_self]
                  exact hdec
              unfold branchSites
              have := ih (emitInst buf enc) (lbl.linkTo (bufSize buf))
                (bufSize buf :: sites) buf2 lbl2 hnew hrun
              rw [bufSize_emitInst] at this
              exact this

/-- One unfolding of the chain walk at a linked label. -/
theorem bindLoop_succ (f : Nat) (boundPc : Int) (lbl : Label) (buf : List Nat)
    (hl : lbl.isLinked = true) :
    AssemblerARM32.bindLoop (f + 1) boundPc lbl buf =
      match AssemblerARM32.encodeBranchOffset (boundPc - lbl.getLinkPosition)
          (loadWord buf lbl.getLinkPosition) with
      | .ok w =>
        AssemblerARM32.bindLoop f boundPc
          (lbl.setPosition (AssemblerARM32.decodeBranchOffset
            (loadWord buf lbl.getLinkPosition)))
          (storeWord buf lbl.getLinkPosition w)
      | .error e => .error e := by
  conv_lhs => unfold AssemblerARM32.bindLoop
  rw [if_pos hl]

/-- The chain walk of `bind` patches every pending site with the real
displacement to `boundPc`, touches no other word, and ends with the sentinel
label, provided the fuel exceeds the chain length and the buffer stays within
the branch field's range. -/
theorem bindLoop_patches : ∀ (sites : List Int) (fuel : Nat) (lbl : Label)
    (buf : List Nat) (boundPc : Int),
    Chain buf lbl.position sites →
    sites.length < fuel →
    boundPc = bufSize buf →
    bufSize buf ≤ 2 ^ 25 →
    ∃ buf2, AssemblerARM32.bindLoop fuel boundPc lbl buf = .ok (buf2, ⟨0⟩) ∧
      buf2.length = buf.length ∧
      (∀ p : Int, 0 ≤ p → p % 4 = 0 → p ∉ sites → loadWord buf2 p = loadWord buf p) ∧
      (∀ s ∈ sites, AssemblerARM32.decodeBranchOffset (loadWord buf2 s) = boundPc - s) := by
  intro sites
  induction sites with
  | nil =>
    intro fuel lbl buf boundPc hc hfuel hpc hsz
    obtain ⟨pos⟩ := lbl
    cases hc
    cases fuel with
    | zero => omega
    | succ f =>
      refine ⟨buf, ?_, rfl, fun p _ _ _ => rfl, by simp⟩
      unfold AssemblerARM32.bindLoop
      simp [Label.isLinked]
  | cons s rest ih =>
    intro fuel lbl buf boundPc hc hfuel hpc hsz
    obtain ⟨pos⟩ := lbl
    cases hc with
    | cons _ e _ hc' hlt h0 hal hsrange hdec =>
      cases fuel with
      | zero => simp at hfuel
      | succ f =>
        have hlinked : (Label.mk (s + 4)).isLinked = true := by
          unfold Label.isLinked
          simp only [decide_eq_true_eq]
          omega
        have hglp : (Label.mk (s + 4)).getLinkPosition = s := by
          unfold Label.getLinkPosition kWordSize
          norm_num
        have hcan : canEncodeBranchOffset (boundPc - s - kPCReadOffset) = true := by
          unfold canEncodeBranchOffset IsAligned IsInt asr kPCReadOffset kBranchOffsetBits
          simp only [Bool.and_eq_true, beq_iff_eq, decide_eq_true_eq]
          have h4 := bufSize_mod_four buf
          norm_num
          omega
        have hok : AssemblerARM32.encodeBranchOffset (boundPc - s) (loadWord buf s) =
            .ok ((loadWord buf s / 2 ^ 24) * 2 ^ 24 +
              ((asr (boundPc - s - kPCReadOffset) 2) % (2 ^ 24 : Int)).toNat) := by
          unfold AssemblerARM32.encodeBranchOffset
          rw [if_pos hcan]
        have hdecw := decodeBranchOffset_encodeBranchOffset _ _ _ hok
        set w2 : Nat := (loadWord buf s / 2 ^ 24) * 2 ^ 24 +
            ((asr (boundPc - s - kPCReadOffset) 2) % (2 ^ 24 : Int)).toNat with hw2
        have hchain' : Chain (storeWord buf s w2) e rest :=
          hc'.store s w2 h0 hal fun t ht => ne_of_lt (hlt t ht)
        have hrec := ih f ⟨e⟩ (storeWord buf s w2) boundPc
          (by exact hchain') (by simpa using Nat.lt_of_succ_lt_succ hfuel)
          (by rw [bufSize_storeWord]; exact hpc) (by rw [bufSize_storeWord]; exact hsz)
        obtain ⟨buf2, hloop, hlen, hframe, hpatch⟩ := hrec
        have hsetp : (Label.mk (s + 4)).setPosition
            (AssemblerARM32.decodeBranchOffset (loadWord buf s)) = ⟨e⟩ := by
          unfold Label.setPosition
          rw [hdec]
        refine ⟨buf2, ?_, by rw [hlen, storeWord_length], ?_, ?_⟩
        · show AssemblerARM32.bindLoop (f + 1) boundPc ⟨s + 4⟩ buf =
            Except.ok (buf2, (⟨0⟩ : Label))
          rw [bindLoop_succ _ _ _ _ hlinked, hglp]
          simp only [hok]
          rw [hsetp]
          exact hloop
        · intro p hp0 hpal hpmem
          rw [hframe p hp0 hpal (fun hmem => hpmem (List.mem_cons_of_mem _ hmem))]
          exact loadWord_storeWord_ne buf s p _ h0 hp0 hal hpal
            fun hh => hpmem (hh ▸ List.mem_cons_self s rest)
        · intro t ht
          rcases List.mem_cons.mp ht with rfl | ht
          · have hsne : t ∉ rest := fun hmem => absurd (hlt t hmem) (lt_irrefl t)
            rw [hframe t h0 hal hsne, loadWord_storeWord_self buf t w2 h0 hsrange]
            exact hdecw
          · exact hpatch t ht

/-- C1: run any request stream (N forward branches to one label, freely
interleaved with other instruction words) from a fresh assembler; if every
emission succeeded and the final buffer is within the branch field's range,
then `bind` succeeds, patches all N branch sites so that each site `S` plus
the decoded displacement of the word now stored at `S` (a decoding that adds
back the read-ahead bias 8) equals the buffer position at which the label was
bound, leaves the buffer length unchanged, and transitions the label to
`Bound` at that position. -/
theorem C1_bind_patches_all_forward_references (prog : List AsmOp)
    (buf : List Nat) (lbl : Label)
    (hrun : runOps prog ([], ⟨0⟩) = .ok (buf, lbl))
    (hsize : bufSize buf ≤ 2 ^ 25) :
    ∃ buf2 lbl2, AssemblerARM32.bind lbl buf = .ok (buf2, lbl2) ∧
      lbl2.isBound = true ∧ lbl2.getPosition = bufSize buf ∧
      buf2.length = buf.length ∧
      ∀ s ∈ branchSites prog 0 [],
        s + AssemblerARM32.decodeBranchOffset (loadWord buf2 s) = bufSize buf := by
  have h0 : bufSize ([] : List Nat) = 0 := by simp [bufSize]
  have hchain := runOps_chain prog [] ⟨0⟩ [] buf lbl (Chain.nil []) hrun
  rw [h0] at hchain
  have hnb : lbl.isBound = false := by
    have := hchain.encPos_nonneg
    unfold Label.isBound
    simp only [decide_eq_false_iff_not]
    omega
  have hfuel : (branchSites prog 0 []).length < buf.length + 1 :=
    Nat.lt_succ_of_le hchain.length_le
  obtain ⟨buf2, hloop, hlen, _, hpatch⟩ := bindLoop_patches (branchSites prog 0 [])
    (buf.length + 1) lbl buf (bufSize buf) hchain hfuel rfl hsize
  refine ⟨buf2, (⟨0⟩ : Label).bindTo (bufSize buf), ?_, ?_, ?_, hlen, ?_⟩
  · unfold AssemblerARM32.bind
    rw [hnb]
    simp only [Bool.false_eq_true, if_false, hloop]
  · unfold Label.bindTo Label.isBound kWordSize
    have := bufSize_nonneg buf
    simp only [decide_eq_true_eq]
    omega
  · unfold Label.bindTo Label.getPosition kWordSize
    norm_num
  · intro s hs
    have := hpatch s hs
    omega

/-- Witness for C1: branch to the label, two `nop`-like words, branch again,
then bind — both sites get patched to point at position 16. -/
theorem C1_bind_patches_all_forward_references_witness :
    runOps [.branch 14 false, .word 0xE320F000, .word 0xE320F000, .branch 14 false]
        ([], ⟨0⟩) =
      .ok ([0xEAFFFFFE, 0xE320F000, 0xE320F000, 0xEAFFFFFF], ⟨16⟩) ∧
      bufSize [0xEAFFFFFE, 0xE320F000, 0xE320F000, 0xEAFFFFFF] ≤ 2 ^ 25 ∧
      ∃ buf2 lbl2,
        AssemblerARM32.bind ⟨16⟩ [0xEAFFFFFE, 0xE320F000, 0xE320F000, 0xEAFFFFFF] =
            .ok (buf2, lbl2) ∧
          lbl2.isBound = true ∧
          lbl2.getPosition =
            bufSize [0xEAFFFFFE, 0xE320F000, 0xE320F000, 0xEAFFFFFF] ∧
          buf2.length = [0xEAFFFFFE, 0xE320F000, 0xE320F000, 0xEAFFFFFF].length ∧
          ∀ s ∈ branchSites
              [.branch 14 false, .word 0xE320F000, .word 0xE320F000, .branch 14 false] 0 [],
            s + AssemblerARM32.decodeBranchOffset (loadWord buf2 s) =
              bufSize [0xEAFFFFFE, 0xE320F000, 0xE320F000, 0xEAFFFFFF] := by
  refine ⟨by rfl, by norm_num [bufSize], ?_⟩
  exact C1_bind_patches_all_forward_references
    [.branch 14 false, .word 0xE320F000, .word 0xE320F000, .branch 14 false]
    [0xEAFFFFFE, 0xE320F000, 0xE320F000, 0xEAFFFFFF] ⟨16⟩ (by rfl)
    (by norm_num [bufSize])

end ARM32

